import Mathlib

set_option autoImplicit false

universe u

/-!
Shallow embedding of the flashcard application's core (src/streamlit_app.py):
the card data model, the folder/level card store, its mutating operations,
the weighted card selector with its recency window, and the persistence loader.
Python dicts are modelled as insertion-ordered association lists, machine
floats as rationals, and the random module as an explicit oracle of draws.
-/

/-- Python str.strip on both ends, modelled executably over the character
list (String.trim is not kernel-reducible). -/
def pyStrip (s : String) : String :=
  ⟨((s.data.dropWhile Char.isWhitespace).reverse.dropWhile Char.isWhitespace).reverse⟩

/-- Split a character list at every occurrence of a separator character. -/
def splitChar (sep : Char) : List Char → List (List Char)
  | [] => [[]]
  | c :: rest =>
    match splitChar sep rest with
    | [] => [[]]
    | h :: t => if c = sep then [] :: h :: t else (c :: h) :: t

/-- Python name.split("/"), modelled executably over the character list
(String.splitOn is not kernel-reducible). -/
def pySplitOnSlash (s : String) : List String := (splitChar '/' s.data).map String.mk

/-- The distinguished default folder name (DEFAULT_FOLDER in the source). -/
def DEFAULT_FOLDER : String := "All Cards"

/-- A flashcard: question/answer text plus optional base64 image payloads. -/
structure Card where
  question : String
  answer : String
  question_image : Option String
  answer_image : Option String
deriving DecidableEq, Repr

/-- The four mastery levels (dictionary keys level_1 .. level_4 in the source). -/
inductive Level where
  | level_1
  | level_2
  | level_3
  | level_4
deriving DecidableEq, Repr

/-- The fixed iteration order of the levels, as in the source's level_order list. -/
def levelsList : List Level := [.level_1, .level_2, .level_3, .level_4]

/-- String form of a level key, used when building recency keys. -/
def Level.key : Level → String
  | .level_1 => "level_1"
  | .level_2 => "level_2"
  | .level_3 => "level_3"
  | .level_4 => "level_4"

/-- The next level up (index + 1 in level_order); none at the top level. -/
def Level.next : Level → Option Level
  | .level_1 => some .level_2
  | .level_2 => some .level_3
  | .level_3 => some .level_4
  | .level_4 => none

/-- A folder: one ordered card sequence per mastery level. -/
structure Folder where
  level_1 : List Card
  level_2 : List Card
  level_3 : List Card
  level_4 : List Card
deriving DecidableEq, Repr

/-- Read the card list of a level. -/
def Folder.get (fd : Folder) : Level → List Card
  | .level_1 => fd.level_1
  | .level_2 => fd.level_2
  | .level_3 => fd.level_3
  | .level_4 => fd.level_4

/-- Replace the card list of a level. -/
def Folder.set (fd : Folder) : Level → List Card → Folder
  | .level_1, cs => { fd with level_1 := cs }
  | .level_2, cs => { fd with level_2 := cs }
  | .level_3, cs => { fd with level_3 := cs }
  | .level_4, cs => { fd with level_4 := cs }

/-- A folder with all four levels empty ({level: [] for level in DICTIONARIES}). -/
def emptyFolder : Folder := ⟨[], [], [], []⟩

/-- The card store: insertion-ordered folder-name/folder bindings (a Python dict). -/
abbrev Store := List (String × Folder)

/-- First-match association lookup: Python store[name] and `name in store`. -/
def lookupF : Store → String → Option Folder
  | [], _ => none
  | (k, v) :: r, n => if k = n then some v else lookupF r n

/-- Update the first binding of a key, or append a new binding at the end
(Python dict assignment semantics). -/
def setF : Store → String → Folder → Store
  | [], n, fd => [(n, fd)]
  | (k, v) :: r, n, fd => if k = n then (n, fd) :: r else (k, v) :: setF r n fd

/-- Remove the first binding of a key (Python del / dict.pop). -/
def eraseF : Store → String → Store
  | [], _ => []
  | (k, v) :: r, n => if k = n then r else (k, v) :: eraseF r n

/-- add_new_flashcard: insert the trimmed card at level_1 of the target folder,
creating the folder first if absent; fails when question or answer is empty
after trimming.  Ensure-then-append is folded into one setF on the looked-up
(or fresh empty) folder, which has the same dict effect. -/
def add_new_flashcard (st : Store) (question answer : String)
    (question_image answer_image : Option String) (folder : String) : Bool × Store :=
  if pyStrip question ≠ "" ∧ pyStrip answer ≠ "" then
    let new_card : Card := ⟨pyStrip question, pyStrip answer, question_image, answer_image⟩
    let fd := (lookupF st folder).getD emptyFolder
    (true, setF st folder (fd.set .level_1 (fd.get .level_1 ++ [new_card])))
  else (false, st)

/-- delete_flashcard: remove the card at index from a level; false (no-op) when
the folder is absent or the index is out of range. -/
def delete_flashcard (st : Store) (folder : String) (lvl : Level) (index : Nat) :
    Bool × Store :=
  match lookupF st folder with
  | none => (false, st)
  | some fd =>
    if index < (fd.get lvl).length then
      (true, setF st folder (fd.set lvl ((fd.get lvl).eraseIdx index)))
    else (false, st)

/-- edit_flashcard: in-place update of the card at index with trimmed text;
an image argument of none means keep the existing image. -/
def edit_flashcard (st : Store) (folder : String) (lvl : Level) (index : Nat)
    (new_question new_answer : String) (question_image answer_image : Option String) :
    Bool × Store :=
  match lookupF st folder with
  | none => (false, st)
  | some fd =>
    match (fd.get lvl).get? index with
    | none => (false, st)
    | some card =>
      let card1 : Card :=
        { question := pyStrip new_question
          answer := pyStrip new_answer
          question_image := match question_image with
            | some v => some v
            | none => card.question_image
          answer_image := match answer_image with
            | some v => some v
            | none => card.answer_image }
      (true, setF st folder (fd.set lvl ((fd.get lvl).set index card1)))

/-- move_card_to_folder: relocate a card between two existing folders at the
same level; false when either folder is absent or the index is out of range. -/
def move_card_to_folder (st : Store) (from_folder : String) (lvl : Level) (index : Nat)
    (to_folder : String) : Bool × Store :=
  match lookupF st from_folder, lookupF st to_folder with
  | some fdFrom, some _ =>
    match (fdFrom.get lvl).get? index with
    | none => (false, st)
    | some card =>
      match lookupF (setF st from_folder
          (fdFrom.set lvl ((fdFrom.get lvl).eraseIdx index))) to_folder with
      | some fdTo =>
        (true, setF (setF st from_folder (fdFrom.set lvl ((fdFrom.get lvl).eraseIdx index)))
          to_folder (fdTo.set lvl (fdTo.get lvl ++ [card])))
      | none =>
        (true, setF st from_folder (fdFrom.set lvl ((fdFrom.get lvl).eraseIdx index)))
  | _, _ => (false, st)

/-- Create a folder with empty levels when absent (the "create target folder
if it doesn't exist" step of move_card_between_folders). -/
def ensureFolder (st : Store) (name : String) : Store :=
  if (lookupF st name).isNone then setF st name emptyFolder else st

/-- move_card_between_folders: like move_card_to_folder, but creates the target
folder when absent; the creation happens before the index bound check, exactly
as in the source. -/
def move_card_between_folders (st : Store) (src_folder : String) (lvl : Level)
    (index : Nat) (target_folder : String) : Bool × Store :=
  match lookupF st src_folder with
  | none => (false, st)
  | some _ =>
    match lookupF (ensureFolder st target_folder) src_folder with
    | none => (false, ensureFolder st target_folder)
    | some fdSrc =>
      match (fdSrc.get lvl).get? index with
      | none => (false, ensureFolder st target_folder)
      | some card =>
        match lookupF (setF (ensureFolder st target_folder) src_folder
            (fdSrc.set lvl ((fdSrc.get lvl).eraseIdx index))) target_folder with
        | some fdT =>
          (true, setF (setF (ensureFolder st target_folder) src_folder
            (fdSrc.set lvl ((fdSrc.get lvl).eraseIdx index))) target_folder
            (fdT.set lvl (fdT.get lvl ++ [card])))
        | none =>
          (true, setF (ensureFolder st target_folder) src_folder
            (fdSrc.set lvl ((fdSrc.get lvl).eraseIdx index)))

/-- Collapse a folder back to level_1: concatenate all four levels in order and
empty the rest (the per-folder body of reset_all_cards). -/
def resetFolderCards (fd : Folder) : Folder :=
  ⟨fd.level_1 ++ fd.level_2 ++ fd.level_3 ++ fd.level_4, [], [], []⟩

/-- reset_all_cards: reset a named folder (no-op when absent), or every folder
when none is given. -/
def reset_all_cards (st : Store) (folder : Option String) : Store :=
  match folder with
  | some f =>
    match lookupF st f with
    | none => st
    | some fd => setF st f (resetFolderCards fd)
  | none => st.map (fun kv => (kv.1, resetFolderCards kv.2))

/-- delete_all_cards: empty the four levels of a named folder (no-op when
absent), or of every folder when none is given. -/
def delete_all_cards (st : Store) (folder : Option String) : Store :=
  match folder with
  | some f =>
    match lookupF st f with
    | none => st
    | some _ => setF st f emptyFolder
  | none => st.map (fun kv => (kv.1, emptyFolder))

/-- create_folder: trim the name, create the chain of non-empty parent prefixes
that are absent, then create the folder itself unless it already exists (the
parent chain is created even when the full name is a duplicate, as in the
source). -/
def create_folder (st : Store) (folder_name : String) : Bool × Store :=
  let name := pyStrip folder_name
  if name = "" then (false, st)
  else
    let parts := pySplitOnSlash name
    let st1 := ((List.range parts.length).drop 1).foldl
      (fun acc i =>
        let parent := String.intercalate "/" (parts.take i)
        if parent ≠ "" ∧ (lookupF acc parent).isNone
        then setF acc parent emptyFolder else acc)
      st
    if (lookupF st1 name).isNone then (true, setF st1 name emptyFolder)
    else (false, st1)

/-- delete_folder: remove a folder unless absent or the default folder. -/
def delete_folder (st : Store) (folder_name : String) : Bool × Store :=
  if (lookupF st folder_name).isSome ∧ folder_name ≠ DEFAULT_FOLDER then
    (true, eraseF st folder_name)
  else (false, st)

/-- rename_folder: fails on a blank new name, a missing old folder, or an
existing new name; otherwise pops the old binding and appends the new one at
the end (st[new] = st.pop(old)).  The source also rewrites study_folders,
which is session bookkeeping outside the store. -/
def rename_folder (st : Store) (old_name new_name : String) : Bool × Store :=
  if pyStrip new_name = "" ∨ (lookupF st old_name).isNone then (false, st)
  else if (lookupF st new_name).isSome then (false, st)
  else
    match lookupF st old_name with
    | some fd => (true, eraseF st old_name ++ [(new_name, fd)])
    | none => (false, st)

/-- move_card_up: promote the card one level; .ok (false, st) at the top level
(before any store access), .error for the KeyError/IndexError the source's
unguarded pop would raise on a missing folder or bad index. -/
def move_card_up (st : Store) (folder : String) (current_level : Level)
    (card_index : Nat) : Except Unit (Bool × Store) :=
  match current_level.next with
  | none => .ok (false, st)
  | some next_level =>
    match lookupF st folder with
    | none => .error ()
    | some fd =>
      match (fd.get current_level).get? card_index with
      | none => .error ()
      | some card =>
        let fd1 := fd.set current_level ((fd.get current_level).eraseIdx card_index)
        .ok (true, setF st folder (fd1.set next_level (fd1.get next_level ++ [card])))

/-- move_card_down: demote the card to level_1; .ok (false, st) when already at
level_1 (before any store access), .error for the unguarded pop's exceptions. -/
def move_card_down (st : Store) (folder : String) (current_level : Level)
    (card_index : Nat) : Except Unit (Bool × Store) :=
  if current_level = .level_1 then .ok (false, st)
  else
    match lookupF st folder with
    | none => .error ()
    | some fd =>
      match (fd.get current_level).get? card_index with
      | none => .error ()
      | some card =>
        let fd1 := fd.set current_level ((fd.get current_level).eraseIdx card_index)
        .ok (true, setF st folder (fd1.set .level_1 (fd1.get .level_1 ++ [card])))

/-- The store an Except-producing operation leaves behind: the new store on
normal return, the untouched input store when the operation raised (the
source's pop raises before any mutation). -/
def resStore (r : Except Unit (Bool × Store)) (st : Store) : Store :=
  match r with
  | .ok p => p.2
  | .error _ => st

/-- One application of move_card_up as a store transformer (for iteration). -/
def stepUp (folder : String) (lvl : Level) (i : Nat) (st : Store) : Store :=
  resStore (move_card_up st folder lvl i) st

/-- One application of move_card_down as a store transformer (for iteration). -/
def stepDown (folder : String) (lvl : Level) (i : Nat) (st : Store) : Store :=
  resStore (move_card_down st folder lvl i) st

/-- Oracle of random draws: floats models successive random() results (true
executions keep them in [0,1)), picks models successive random.choice index
selections.  Quantifying over oracles quantifies over all draw sequences. -/
structure RandOracle where
  floats : Nat → ℚ
  picks : Nat → Nat

/-- random.choice on a list, driven by an oracle index (reduced mod length);
none on the empty list (where Python would raise). -/
def pyChoice {α : Type u} (l : List α) (n : Nat) : Option α := l.get? (n % l.length)

/-- The running cumulative sums of a weight list, starting from acc. -/
def prefixSumsFrom (acc : ℚ) : List ℚ → List ℚ
  | [] => []
  | w :: ws => (acc + w) :: prefixSumsFrom (acc + w) ws

/-- Cumulative prefix sums of a weight list (the boundaries of weighted_choice). -/
def prefixSums (ws : List ℚ) : List ℚ := prefixSumsFrom 0 ws

/-- The cumulative walk of weighted_choice: return the first item whose running
total reaches the draw r. -/
def wcGo (r : ℚ) : List (String × ℚ) → ℚ → Option String
  | [], _ => none
  | (it, w) :: rest, upto =>
    if r ≤ upto + w then some it else wcGo r rest (upto + w)

/-- weighted_choice from get_next_question: uniform fallback when the total
weight is ≤ 0, otherwise a cumulative walk over the zipped item/weight pairs
with r = random() * total, defaulting to the last item when the walk falls
through. -/
def weighted_choice (items : List String) (weights_list : List ℚ) (u : ℚ)
    (pick : Nat) : Option String :=
  let total := weights_list.sum
  if total ≤ 0 then pyChoice items pick
  else
    match wcGo (u * total) (items.zip weights_list) 0 with
    | some it => some it
    | none => items.getLast?

/-- Level selection in get_next_question: accumulate draw chances over the four
levels in fixed order and take the first whose cumulative mass reaches the
draw, defaulting to level_4. -/
def chooseLevel (dc : Level → ℚ) (r : ℚ) : Level :=
  if r ≤ dc .level_1 then .level_1
  else if r ≤ dc .level_1 + dc .level_2 then .level_2
  else if r ≤ dc .level_1 + dc .level_2 + dc .level_3 then .level_3
  else if r ≤ dc .level_1 + dc .level_2 + dc .level_3 + dc .level_4 then .level_4
  else .level_4

/-- Recency-tracking key of a card: folder||level||question||answer. -/
def cardKey (folder : String) (lvl : Level) (card : Card) : String :=
  folder ++ "||" ++ lvl.key ++ "||" ++ card.question ++ "||" ++ card.answer

/-- Append a key to the recency window and trim it to its last recent_max
entries when it exceeds that capacity. -/
def pushRecent (rs : List String) (k : String) (recent_max : Nat) : List String :=
  let l := rs ++ [k]
  if recent_max < l.length then l.drop (l.length - recent_max) else l

/-- Keys of a dict built by successive insertion: keep first occurrences in
order (how the available dict deduplicates study_folders). -/
def dedupFirst (l : List String) : List String :=
  l.foldl (fun acc x => if x ∈ acc then acc else acc ++ [x]) []

/-- The session state read and written by get_next_question. -/
structure Session where
  flashcards : Store
  study_folders : List String
  draw_chances : Level → ℚ
  folder_weights : String → ℚ
  recently_shown : List String
  recent_max : Nat

/-- The selector's result tuple (folder, level, card, index). -/
abbrev Res := String × Level × Card × Nat

/-- The enumerated candidates of one bucket: (index, card, recency key). -/
def bucketCandidates (folder : String) (lvl : Level) (cards : List Card) :
    List (Nat × Card × String) :=
  cards.enum.map (fun e => (e.1, e.2, cardKey folder lvl e.2))

/-- The retry loop of get_next_question (fuel counts attempts left, t numbers
the attempt for oracle indexing): pick a folder by weight and a level by draw
chance; on a non-empty bucket choose a card preferring candidates whose key is
not recently shown, and return it together with its key. -/
def attemptLoop (available : Store) (folders_list : List String)
    (weights : List ℚ) (dc : Level → ℚ) (rs : List String) (o : RandOracle) :
    Nat → Nat → Option (String × Level × Card × Nat × String)
  | 0, _ => none
  | fuel + 1, t =>
    match weighted_choice folders_list weights (o.floats (2 * t)) (o.picks (2 * t)) with
    | none => none
    | some folder =>
      let lvl := chooseLevel dc (o.floats (2 * t + 1))
      let cards := ((lookupF available folder).map (fun fd => fd.get lvl)).getD []
      if cards.isEmpty then attemptLoop available folders_list weights dc rs o fuel (t + 1)
      else
        let candidates := bucketCandidates folder lvl cards
        let non_recent := candidates.filter (fun c => decide (c.2.2 ∉ rs))
        let pick_list := if non_recent.isEmpty then candidates else non_recent
        match pyChoice pick_list (o.picks (2 * t + 1)) with
        | some p => some (folder, lvl, p.2.1, p.1, p.2.2)
        | none => none

/-- The fallback candidate set: every (folder, level, index, card, key) across
the available folders. -/
def allCandidates (available : Store) : List (String × Level × Nat × Card × String) :=
  available.flatMap (fun p =>
    levelsList.flatMap (fun lvl =>
      (p.2.get lvl).enum.map (fun e => (p.1, lvl, e.1, e.2, cardKey p.1 lvl e.2))))

/-- The available folder map: the (deduplicated) study folders present in the
store, in order, with their folders. -/
def availableOf (s : Session) : Store :=
  (dedupFirst s.study_folders).filterMap
    (fun f => (lookupF s.flashcards f).map (fun fd => (f, fd)))

/-- get_next_question: build the available map from the (deduplicated) study
folders present in the store; return none when it is empty; otherwise run up
to 10 attempts and fall back to a recency-preferring uniform choice over all
available cards.  Returns the result together with the new recency window. -/
def get_next_question (s : Session) (o : RandOracle) : Option Res × List String :=
  let available : Store := availableOf s
  if available.isEmpty then (none, s.recently_shown)
  else
    let folders_list := available.map Prod.fst
    let weights := folders_list.map s.folder_weights
    match attemptLoop available folders_list weights s.draw_chances s.recently_shown o 10 0 with
    | some p =>
      (some (p.1, p.2.1, p.2.2.1, p.2.2.2.1), pushRecent s.recently_shown p.2.2.2.2 s.recent_max)
    | none =>
      let all_cands := allCandidates available
      if all_cands.isEmpty then (none, s.recently_shown)
      else
        let non_recent := all_cands.filter (fun c => decide (c.2.2.2.2 ∉ s.recently_shown))
        match pyChoice (if non_recent.isEmpty then all_cands else non_recent) (o.picks 20) with
        | some q =>
          (some (q.1, q.2.1, q.2.2.2.1, q.2.2.1), pushRecent s.recently_shown q.2.2.2.2 s.recent_max)
        | none => (none, s.recently_shown)

/-- get_next_question as a session transformer: the source writes only the
recently_shown session entry. -/
def getNextQuestionS (s : Session) (o : RandOracle) : Option Res × Session :=
  let r := get_next_question s o
  (r.1, { s with recently_shown := r.2 })

/-- A sequence of selector calls, each with its own oracle of draws. -/
def iterDraws (os : Nat → RandOracle) : Nat → Session → List (Option Res) × Session
  | 0, s => ([], s)
  | m + 1, s =>
    let step := getNextQuestionS s (os 0)
    let rest := iterDraws (fun i => os (i + 1)) m step.2
    (step.1 :: rest.1, rest.2)

/-- A session whose store holds one folder with a single populated level: the
single-bucket configuration used to analyse the recency window. -/
def singleSession (f : String) (L : Level) (cs : List Card) (dc : Level → ℚ)
    (fw : String → ℚ) (rs : List String) (N : Nat) : Session :=
  ⟨[(f, Folder.set emptyFolder L cs)], [f], dc, fw, rs, N⟩

/-- JSON-like documents, modelling what json.load can produce. -/
inductive JValue where
  | null
  | jbool (b : Bool)
  | num (q : ℚ)
  | str (s : String)
  | arr (xs : List JValue)
  | obj (kvs : List (String × JValue))

/-- isinstance(v, dict) as a Boolean discriminator. -/
def JValue.isObjB : JValue → Bool
  | .obj _ => true
  | _ => false

/-- First-match lookup in a JSON object ("k in d" / d.get(k)). -/
def jLookup : List (String × JValue) → String → Option JValue
  | [], _ => none
  | (k, v) :: r, n => if k = n then some v else jLookup r n

/-- The empty default store document: the default folder with four empty levels. -/
def defaultStoreJ : JValue :=
  .obj [(DEFAULT_FOLDER, .obj [("level_1", .arr []), ("level_2", .arr []),
    ("level_3", .arr []), ("level_4", .arr [])])]

/-- load_flashcards over the file's parse outcome: none models a missing file,
some none a present file whose json.load raises (caught, fall through to the
default), some (some v) a successful parse of v.  A parsed dict with a _meta
key is returned with _meta re-appended at the end (the setdefault after the
filtering comprehension); a parsed dict whose level_1 value exists and is not
a dict is wrapped under the default folder (legacy migration); anything else
parsed is returned as-is. -/
def load_flashcards : Option (Option JValue) → JValue
  | none => defaultStoreJ
  | some none => defaultStoreJ
  | some (some data) =>
    match data with
    | .obj kvs =>
      match jLookup kvs "_meta" with
      | some meta => .obj (kvs.filter (fun kv => decide (kv.1 ≠ "_meta")) ++ [("_meta", meta)])
      | none =>
        match jLookup kvs "level_1" with
        | some v => if v.isObjB then .obj kvs else .obj [(DEFAULT_FOLDER, .obj kvs)]
        | none => .obj kvs
    | other => other

/-! ## Store lemmas -/

theorem lookupF_setF_self (st : Store) (k : String) (fd : Folder) :
    lookupF (setF st k fd) k = some fd := by
  induction st with
  | nil => simp [setF, lookupF]
  | cons hd tl ih =>
    by_cases h : hd.1 = k
    · simp [setF, lookupF, h]
    · simpa [setF, lookupF, h] using ih

theorem lookupF_setF_ne (st : Store) (k : String) (fd : Folder) (n : String)
    (h : k ≠ n) : lookupF (setF st k fd) n = lookupF st n := by
  induction st with
  | nil => simp [setF, lookupF, h]
  | cons hd tl ih =>
    obtain ⟨k0, v0⟩ := hd
    by_cases hk : k0 = k
    · subst hk
      simp [setF, lookupF, h, fun hh : k0 = n => h hh]
    · by_cases hn : k0 = n
      · subst hn
        simp only [setF, lookupF, if_neg hk, if_neg (fun hh : k0 = k => h hh.symm)]
        simp [lookupF]
      · simp [setF, lookupF, hk, hn, ih]

theorem isSome_lookupF_setF (st : Store) (k : String) (fd : Folder) (n : String)
    (h : (lookupF st n).isSome) : (lookupF (setF st k fd) n).isSome := by
  by_cases hk : k = n
  · subst hk; simp [lookupF_setF_self]
  · rwa [lookupF_setF_ne st k fd n hk]

theorem lookupF_eraseF_ne (st : Store) (k n : String) (h : k ≠ n) :
    lookupF (eraseF st k) n = lookupF st n := by
  induction st with
  | nil => simp [eraseF]
  | cons hd tl ih =>
    obtain ⟨k0, v0⟩ := hd
    by_cases hk : k0 = k
    · subst hk
      simp [eraseF, lookupF, fun hh : k0 = n => h hh]
    · by_cases hn : k0 = n
      · subst hn
        simp [eraseF, lookupF, hk]
      · simp [eraseF, lookupF, hk, hn, ih]

theorem lookupF_map (g : Folder → Folder) (st : Store) (n : String) :
    lookupF (st.map (fun kv => (kv.1, g kv.2))) n = (lookupF st n).map g := by
  induction st with
  | nil => simp [lookupF]
  | cons hd tl ih =>
    by_cases hn : hd.1 = n <;> simp [lookupF, hn, ih]

theorem lookupF_map_const (fd0 : Folder) (st : Store) (n : String) :
    lookupF (st.map (fun kv => (kv.1, fd0))) n = (lookupF st n).map (fun _ => fd0) := by
  induction st with
  | nil => simp [lookupF]
  | cons hd tl ih =>
    by_cases hn : hd.1 = n <;> simp [lookupF, hn, ih]

theorem isSome_lookupF_append (s t : Store) (n : String)
    (h : (lookupF s n).isSome) : (lookupF (s ++ t) n).isSome := by
  induction s with
  | nil => simp [lookupF] at h
  | cons hd tl ih =>
    by_cases hn : hd.1 = n <;> simp_all [lookupF]

theorem foldl_preserves {β : Type} (P : Store → Prop) (f : Store → β → Store)
    (h : ∀ a b, P a → P (f a b)) :
    ∀ (l : List β) (a : Store), P a → P (l.foldl f a) := by
  intro l
  induction l with
  | nil => intro a ha; exact ha
  | cons b tl ih => intro a ha; exact ih (f a b) (h a b ha)

theorem lookupF_mem {st : Store} {n : String} {fd : Folder}
    (h : lookupF st n = some fd) : (n, fd) ∈ st := by
  induction st with
  | nil => simp [lookupF] at h
  | cons hd tl ih =>
    obtain ⟨k0, v0⟩ := hd
    by_cases hn : k0 = n
    · subst hn
      simp [lookupF] at h
      subst h
      exact List.mem_cons_self _ _
    · simp [lookupF, hn] at h
      exact List.mem_cons_of_mem _ (ih h)

/-! ## C2: progression is idempotent at the boundary levels -/

/-- C2: at the top level, move_card_up is a pure no-op returning the failure
flag without raising, and at the bottom level move_card_down likewise; hence
applying either transition any number of times leaves the store unchanged. -/
theorem c2_boundary_idempotent (st : Store) (folder : String) (i n : Nat) :
    move_card_up st folder .level_4 i = .ok (false, st)
    ∧ move_card_down st folder .level_1 i = .ok (false, st)
    ∧ (stepUp folder .level_4 i)^[n] st = st
    ∧ (stepDown folder .level_1 i)^[n] st = st := by
  refine ⟨rfl, rfl, ?_, ?_⟩
  · exact Function.iterate_fixed rfl n
  · exact Function.iterate_fixed rfl n

/-! ## C10: the selector never mutates the card store -/

/-- C10: a selector call leaves every session component except the recency
window unchanged; in particular the folder-to-level-to-cards mapping is
identical before and after. -/
theorem c10_selector_pure (s : Session) (o : RandOracle) :
    (getNextQuestionS s o).2.flashcards = s.flashcards
    ∧ (getNextQuestionS s o).2.study_folders = s.study_folders
    ∧ (getNextQuestionS s o).2.draw_chances = s.draw_chances
    ∧ (getNextQuestionS s o).2.folder_weights = s.folder_weights
    ∧ (getNextQuestionS s o).2.recent_max = s.recent_max :=
  ⟨rfl, rfl, rfl, rfl, rfl⟩

/-! ## C8: reset collapses a folder into level_1 -/

/-- C8: resetting a folder replaces it by a folder whose level_1 is the
in-order concatenation of the four previous levels (cards unchanged), whose
other levels are empty, and whose total card count is preserved. -/
theorem c8_reset_concatenates (st : Store) (f : String) (fd : Folder)
    (h : lookupF st f = some fd) :
    lookupF (reset_all_cards st (some f)) f = some (resetFolderCards fd)
    ∧ (resetFolderCards fd).level_1
        = fd.level_1 ++ fd.level_2 ++ fd.level_3 ++ fd.level_4
    ∧ (resetFolderCards fd).level_2 = []
    ∧ (resetFolderCards fd).level_3 = []
    ∧ (resetFolderCards fd).level_4 = []
    ∧ (resetFolderCards fd).level_1.length + (resetFolderCards fd).level_2.length
        + (resetFolderCards fd).level_3.length + (resetFolderCards fd).level_4.length
      = fd.level_1.length + fd.level_2.length + fd.level_3.length + fd.level_4.length := by
  refine ⟨?_, rfl, rfl, rfl, rfl, ?_⟩
  · simp [reset_all_cards, h, lookupF_setF_self]
  · simp [resetFolderCards]
    omega

/-- Witness for C8 at a concrete store. -/
theorem c8_reset_concatenates_witness :
    lookupF (reset_all_cards [("All Cards", ⟨[⟨"q1", "a1", none, none⟩], [],
        [⟨"q3", "a3", none, none⟩], []⟩)] (some "All Cards")) "All Cards"
      = some ⟨[⟨"q1", "a1", none, none⟩, ⟨"q3", "a3", none, none⟩], [], [], []⟩
    ∧ (resetFolderCards ⟨[⟨"q1", "a1", none, none⟩], [], [⟨"q3", "a3", none, none⟩], []⟩).level_2 = [] := by
  have h := c8_reset_concatenates
    [("All Cards", ⟨[⟨"q1", "a1", none, none⟩], [], [⟨"q3", "a3", none, none⟩], []⟩)]
    "All Cards" ⟨[⟨"q1", "a1", none, none⟩], [], [⟨"q3", "a3", none, none⟩], []⟩ (by decide)
  exact ⟨h.1, h.2.2.1⟩

/-! ## C9: legacy flat documents migrate under the default folder -/

/-- C9: a legacy flat document mapping the four level names directly to card
arrays loads as the same document wrapped under the default folder, with every
array preserved unchanged. -/
theorem c9_legacy_migration (l1 l2 l3 l4 : List JValue) :
    load_flashcards (some (some (.obj [("level_1", .arr l1), ("level_2", .arr l2),
        ("level_3", .arr l3), ("level_4", .arr l4)])))
    = .obj [(DEFAULT_FOLDER, .obj [("level_1", .arr l1), ("level_2", .arr l2),
        ("level_3", .arr l3), ("level_4", .arr l4)])] := by
  rfl

/-! ## C7: load on absent or malformed content -/

/-- C7 counterexample: a file whose content parses to a JSON array — content
that is not a well-formed store document — is returned as-is by
load_flashcards, not replaced by the empty default store. -/
theorem c7_counterexample :
    load_flashcards (some (some (.arr []))) = .arr []
    ∧ load_flashcards (some (some (.arr []))) ≠ defaultStoreJ :=
  ⟨rfl, fun h => JValue.noConfusion h⟩

/-- C7 amended: load never raises (it is total); a missing file or content on
which the JSON parse fails yields the empty default store; but content that
parses to a non-dict value is returned unchanged, without validation. -/
theorem c7_load_degrades (v : JValue) (h : v.isObjB = false) :
    load_flashcards none = defaultStoreJ
    ∧ load_flashcards (some none) = defaultStoreJ
    ∧ load_flashcards (some (some v)) = v := by
  refine ⟨rfl, rfl, ?_⟩
  cases v <;> first | rfl | exact absurd h (by simp [JValue.isObjB])

/-- Witness for C7 at the concrete non-dict value .arr []. -/
theorem c7_load_degrades_witness :
    load_flashcards none = defaultStoreJ
    ∧ load_flashcards (some none) = defaultStoreJ
    ∧ load_flashcards (some (some (.arr []))) = .arr [] :=
  c7_load_degrades (.arr []) rfl

/-! ## C5: weighted folder choice and non-positive weights -/

/-- C5 counterexample: with weights [1, -2] one active folder has weight > 0,
yet the total is ≤ 0, so weighted_choice falls back to a uniform choice over
all folders and can return the folder of weight -2. -/
theorem c5_counterexample :
    (0 : ℚ) < 1 ∧ (-2 : ℚ) ≤ 0
    ∧ weighted_choice ["A", "B"] [1, -2] 0 1 = some "B" := by
  refine ⟨by norm_num, by norm_num, ?_⟩
  simp [weighted_choice, pyChoice]

/-- The cumulative walk only ever settles on an entry of the pair list; when
the draw is at least the running total and avoids every cumulative boundary,
the selected entry's weight is strictly positive. -/
theorem wcGo_selects_positive (r : ℚ) :
    ∀ (pairs : List (String × ℚ)) (acc : ℚ), acc ≤ r →
      r ∉ prefixSumsFrom acc (pairs.map Prod.snd) →
      ∀ x, wcGo r pairs acc = some x → ∃ w, (x, w) ∈ pairs ∧ 0 < w := by
  intro pairs
  induction pairs with
  | nil => intro acc _ _ x hx; simp [wcGo] at hx
  | cons hd tl ih =>
    obtain ⟨it, w⟩ := hd
    intro acc hacc hmem x hx
    simp [prefixSumsFrom] at hmem
    push_neg at hmem
    by_cases hle : r ≤ acc + w
    · simp [wcGo, hle] at hx
      subst hx
      refine ⟨w, List.mem_cons_self _ _, ?_⟩
      have hne : r ≠ acc + w := hmem.1
      have hlt : r < acc + w := lt_of_le_of_ne hle hne
      linarith
    · simp [wcGo, hle] at hx
      have hacc' : acc + w ≤ r := le_of_not_le (fun hh => hle hh)
      obtain ⟨w', hw', hpos⟩ := ih (acc + w) hacc' hmem.2 x hx
      exact ⟨w', List.mem_cons_of_mem _ hw', hpos⟩

/-- The cumulative walk returns an entry whenever the draw does not exceed the
running total plus the remaining weight mass. -/
theorem wcGo_isSome (r : ℚ) :
    ∀ (pairs : List (String × ℚ)) (acc : ℚ), pairs ≠ [] →
      r ≤ acc + (pairs.map Prod.snd).sum → (wcGo r pairs acc).isSome := by
  intro pairs
  induction pairs with
  | nil => intro acc h _; exact absurd rfl h
  | cons hd tl ih =>
    obtain ⟨it, w⟩ := hd
    intro acc _ hsum
    by_cases hle : r ≤ acc + w
    · simp [wcGo, hle]
    · rcases List.eq_nil_or_concat tl with h | _
      · subst h
        simp at hsum
        exact absurd hsum hle
      · have htl : tl ≠ [] := by
          rintro rfl
          simp at hsum
          exact hle hsum
        have : r ≤ acc + w + (tl.map Prod.snd).sum := by
          simp at hsum
          linarith [hsum]
        simpa [wcGo, hle] using ih (acc + w) htl this

/-- C5 amended: the uniform fallback over all active folders happens exactly
when the sum of weights is ≤ 0 (possible even when some folder has positive
weight); when the sum is positive and the draw does not hit a cumulative
boundary exactly, the selected folder comes with a strictly positive weight. -/
theorem c5_weighted_choice_amended (items : List String) (ws : List ℚ) (u : ℚ)
    (pick : Nat) :
    (ws.sum ≤ 0 → weighted_choice items ws u pick = pyChoice items pick)
    ∧ (0 < ws.sum → 0 ≤ u → u < 1 → items.length = ws.length →
        u * ws.sum ∉ prefixSums ws →
        ∀ x, weighted_choice items ws u pick = some x →
          ∃ w, (x, w) ∈ items.zip ws ∧ 0 < w) := by
  constructor
  · intro h
    simp [weighted_choice, h]
  · intro hpos hu0 hu1 hlen hmem x hx
    have hzip : (items.zip ws).map Prod.snd = ws :=
      List.map_snd_zip _ _ (le_of_eq hlen.symm)
    have hr0 : 0 ≤ u * ws.sum := mul_nonneg hu0 (le_of_lt hpos)
    have hnotle : ¬ (ws.sum ≤ 0) := not_le.mpr hpos
    have hws : ws ≠ [] := by rintro rfl; simp at hpos
    have hitems : items ≠ [] := by
      intro h0
      rw [h0] at hlen
      exact hws (List.eq_nil_of_length_eq_zero hlen.symm)
    have hzipne : items.zip ws ≠ [] := by
      intro h0
      have := congrArg List.length h0
      rw [List.length_zip, ← hlen, Nat.min_self] at this
      exact hitems (List.eq_nil_of_length_eq_zero this)
    have hsome := wcGo_isSome (u * ws.sum) (items.zip ws) 0 hzipne
      (by rw [hzip]; nlinarith)
    simp only [weighted_choice, if_neg hnotle] at hx
    cases hw : wcGo (u * ws.sum) (items.zip ws) 0 with
    | none => rw [hw] at hsome; simp at hsome
    | some y =>
      rw [hw] at hx
      simp at hx
      subst hx
      exact wcGo_selects_positive (u * ws.sum) (items.zip ws) 0 hr0
        (by rw [hzip]; exact hmem) y hw

/-- Witness for C5 amended: the sum-nonpositive fallback at weights [1, -2]
and the positive-weight selection at weights [0, 1] with draw 1/2. -/
theorem c5_weighted_choice_amended_witness :
    weighted_choice ["A", "B"] [1, -2] 0 1 = pyChoice ["A", "B"] 1
    ∧ ∃ w, ("B", w) ∈ (["A", "B"].zip [(0 : ℚ), 1]) ∧ 0 < w :=
  ⟨(c5_weighted_choice_amended ["A", "B"] [1, -2] 0 1).1 (by norm_num),
   (c5_weighted_choice_amended ["A", "B"] [(0 : ℚ), 1] (1/2) 0).2 (by norm_num)
     (by norm_num) (by norm_num) rfl
     (by norm_num [prefixSums, prefixSumsFrom]) "B"
     (by norm_num [weighted_choice, wcGo, pyChoice])⟩

/-! ## C6: validation failures, atomicity and totality -/

/-- C6 counterexample: edit_flashcard accepts empty question/answer text (it
returns success and overwrites the card); create_folder on a nested name
whose full path already exists returns failure yet still creates the missing
parent folder; move_card_between_folders with an out-of-range index returns
failure yet creates the missing target folder first; and move_card_up and
move_card_down at a non-boundary level raise (modelled as Except.error) on an
out-of-range index instead of returning failure — none of these is the
claimed atomic, non-raising validation failure. -/
theorem c6_counterexample :
    (edit_flashcard [("All Cards", ⟨[⟨"Q", "A", none, none⟩], [], [], []⟩)]
        "All Cards" .level_1 0 "" "" none none).1 = true
    ∧ (edit_flashcard [("All Cards", ⟨[⟨"Q", "A", none, none⟩], [], [], []⟩)]
        "All Cards" .level_1 0 "" "" none none).2
      ≠ [("All Cards", ⟨[⟨"Q", "A", none, none⟩], [], [], []⟩)]
    ∧ (create_folder [("All Cards", emptyFolder), ("A/B", emptyFolder)] "A/B").1 = false
    ∧ (create_folder [("All Cards", emptyFolder), ("A/B", emptyFolder)] "A/B").2
      ≠ [("All Cards", emptyFolder), ("A/B", emptyFolder)]
    ∧ (move_card_between_folders [("All Cards", emptyFolder)]
        "All Cards" .level_1 0 "X").1 = false
    ∧ (move_card_between_folders [("All Cards", emptyFolder)]
        "All Cards" .level_1 0 "X").2 ≠ [("All Cards", emptyFolder)]
    ∧ move_card_up [("All Cards", emptyFolder)] "All Cards" .level_1 0
        = Except.error ()
    ∧ move_card_down [("All Cards", emptyFolder)] "All Cards" .level_2 0
        = Except.error () := by
  refine ⟨by decide, by decide, by decide, by decide, by decide, by decide, rfl, rfl⟩

/-- Looking up a folder that is present is unaffected by ensuring some target
folder exists. -/
theorem lookupF_ensureFolder (st : Store) (tgt f : String) (fd : Folder)
    (h : lookupF st f = some fd) : lookupF (ensureFolder st tgt) f = some fd := by
  unfold ensureFolder
  split
  · rename_i htn
    have hne : tgt ≠ f := by
      intro hh
      rw [hh, h] at htn
      simp at htn
    rw [lookupF_setF_ne st tgt emptyFolder f hne]
    exact h
  · exact h

/-- C6 amended: delete_flashcard and edit_flashcard with an absent folder or
out-of-range index, move_card_between_folders with an out-of-range index when
the target folder already exists, create_folder with a blank or duplicate
unnested name, and rename_folder with a blank or already-taken target are
total no-ops returning failure.  However: edit_flashcard performs no
emptiness validation on its text; create_folder may create parent folders
before reporting a nested duplicate; move_card_between_folders creates a
missing target folder before its index bound check, so a failing call leaves
(false, ensureFolder st target); and move_card_up / move_card_down at
non-boundary levels raise (Except.error here, KeyError/IndexError in the
source) on an absent folder or out-of-range index instead of returning a
failure flag. -/
theorem c6_validation_noop (st : Store) (f to_f : String) (lvl : Level) (i : Nat)
    (q a : String) (qi ai : Option String) (nm old_n new_n : String) :
    ((∀ fd, lookupF st f = some fd → (fd.get lvl).length ≤ i) →
      delete_flashcard st f lvl i = (false, st))
    ∧ ((∀ fd, lookupF st f = some fd → (fd.get lvl).length ≤ i) →
      edit_flashcard st f lvl i q a qi ai = (false, st))
    ∧ ((lookupF st f).isSome →
      (∀ fd, lookupF st f = some fd → (fd.get lvl).length ≤ i) →
      move_card_between_folders st f lvl i to_f = (false, ensureFolder st to_f))
    ∧ ((lookupF st to_f).isSome →
      (∀ fd, lookupF st f = some fd → (fd.get lvl).length ≤ i) →
      move_card_between_folders st f lvl i to_f = (false, st))
    ∧ (pyStrip nm = "" → create_folder st nm = (false, st))
    ∧ ((lookupF st (pyStrip nm)).isSome → (pySplitOnSlash (pyStrip nm)).length = 1 →
      create_folder st nm = (false, st))
    ∧ (pyStrip new_n = "" → rename_folder st old_n new_n = (false, st))
    ∧ ((lookupF st new_n).isSome → rename_folder st old_n new_n = (false, st))
    ∧ ((lvl.next).isSome →
      (∀ fd, lookupF st f = some fd → (fd.get lvl).length ≤ i) →
      move_card_up st f lvl i = Except.error ())
    ∧ (lvl ≠ .level_1 →
      (∀ fd, lookupF st f = some fd → (fd.get lvl).length ≤ i) →
      move_card_down st f lvl i = Except.error ()) := by
  have hmb : (lookupF st f).isSome →
      (∀ fd, lookupF st f = some fd → (fd.get lvl).length ≤ i) →
      move_card_between_folders st f lvl i to_f = (false, ensureFolder st to_f) := by
    intro hsrc hb
    unfold move_card_between_folders
    cases hl : lookupF st f with
    | none => rw [hl] at hsrc; simp at hsrc
    | some fd0 =>
      have hkeep := lookupF_ensureFolder st to_f f fd0 hl
      have hnone : (fd0.get lvl).get? i = none := List.get?_eq_none.mpr (hb fd0 hl)
      rw [List.get?_eq_getElem?] at hnone
      simp [hkeep, hnone]
  refine ⟨?_, ?_, hmb, ?_, ?_, ?_, ?_, ?_, ?_, ?_⟩
  · intro hb
    unfold delete_flashcard
    cases hl : lookupF st f with
    | none => rfl
    | some fd =>
      have := hb fd hl
      simp [Nat.not_lt.mpr this]
  · intro hb
    unfold edit_flashcard
    cases hl : lookupF st f with
    | none => rfl
    | some fd =>
      have hnone : (fd.get lvl).get? i = none := List.get?_eq_none.mpr (hb fd hl)
      rw [List.get?_eq_getElem?] at hnone
      simp [hnone]
  · intro htgt hb
    have hens : ensureFolder st to_f = st := by
      unfold ensureFolder
      split
      · rename_i h0
        obtain ⟨fd, hfd⟩ := Option.isSome_iff_exists.mp htgt
        rw [hfd] at h0
        simp at h0
      · rfl
    by_cases hsrc : (lookupF st f).isSome
    · rw [hmb hsrc hb, hens]
    · unfold move_card_between_folders
      cases hl : lookupF st f with
      | none => rfl
      | some fd => rw [hl] at hsrc; simp at hsrc
  · intro hb
    simp [create_folder, hb]
  · intro hsome hflat
    by_cases hne : pyStrip nm = ""
    · simp [create_folder, hne]
    · have hrange : (List.range (pySplitOnSlash (pyStrip nm)).length).drop 1 = [] := by
        rw [hflat]
        rfl
      obtain ⟨fd, hfd⟩ := Option.isSome_iff_exists.mp hsome
      simp [create_folder, hne, hrange, hfd]
  · intro hb
    simp [rename_folder, hb]
  · intro hb
    unfold rename_folder
    by_cases h1 : pyStrip new_n = "" ∨ (lookupF st old_n).isNone
    · rw [if_pos h1]
    · rw [if_neg h1, if_pos hb]
  · intro hnext hb
    unfold move_card_up
    cases hnx : lvl.next with
    | none => rw [hnx] at hnext; simp at hnext
    | some nl =>
      cases hl : lookupF st f with
      | none => rfl
      | some fd =>
        have hnone : (fd.get lvl).get? i = none := List.get?_eq_none.mpr (hb fd hl)
        rw [List.get?_eq_getElem?] at hnone
        simp [hnone]
  · intro hne1 hb
    unfold move_card_down
    rw [if_neg hne1]
    cases hl : lookupF st f with
    | none => rfl
    | some fd =>
      have hnone : (fd.get lvl).get? i = none := List.get?_eq_none.mpr (hb fd hl)
      rw [List.get?_eq_getElem?] at hnone
      simp [hnone]

/-- Witness for C6 amended at concrete stores (two instantiations, since the
blank-name and duplicate-name cases need different folder names). -/
theorem c6_validation_noop_witness :
    delete_flashcard [("All Cards", emptyFolder)] "All Cards" .level_2 0
      = (false, [("All Cards", emptyFolder)])
    ∧ edit_flashcard [("All Cards", emptyFolder)] "All Cards" .level_2 0 "q" "a" none none
      = (false, [("All Cards", emptyFolder)])
    ∧ move_card_between_folders [("All Cards", emptyFolder)] "All Cards" .level_2 0 "All Cards"
      = (false, ensureFolder [("All Cards", emptyFolder)] "All Cards")
    ∧ move_card_between_folders [("All Cards", emptyFolder)] "All Cards" .level_2 0 "All Cards"
      = (false, [("All Cards", emptyFolder)])
    ∧ create_folder [("All Cards", emptyFolder)] " "
      = (false, [("All Cards", emptyFolder)])
    ∧ create_folder [("All Cards", emptyFolder)] "All Cards"
      = (false, [("All Cards", emptyFolder)])
    ∧ rename_folder [("All Cards", emptyFolder)] "All Cards" " "
      = (false, [("All Cards", emptyFolder)])
    ∧ rename_folder [("All Cards", emptyFolder)] "X" "All Cards"
      = (false, [("All Cards", emptyFolder)])
    ∧ move_card_up [("All Cards", emptyFolder)] "All Cards" .level_2 0
      = Except.error ()
    ∧ move_card_down [("All Cards", emptyFolder)] "All Cards" .level_2 0
      = Except.error () := by
  have hb : ∀ fd, lookupF [("All Cards", emptyFolder)] "All Cards" = some fd →
      (fd.get .level_2).length ≤ 0 := by
    intro fd hfd
    simp [lookupF] at hfd
    subst hfd
    decide
  have h1 := c6_validation_noop [("All Cards", emptyFolder)] "All Cards" "All Cards"
    .level_2 0 "q" "a" none none " " "All Cards" " "
  have h2 := c6_validation_noop [("All Cards", emptyFolder)] "All Cards" "All Cards"
    .level_2 0 "q" "a" none none "All Cards" "X" "All Cards"
  exact ⟨h1.1 hb, h1.2.1 hb, h1.2.2.1 (by decide) hb, h1.2.2.2.1 (by decide) hb,
    h1.2.2.2.2.1 (by decide), h2.2.2.2.2.2.1 (by decide) (by decide),
    h1.2.2.2.2.2.2.1 (by decide), h2.2.2.2.2.2.2.2.1 (by decide),
    h1.2.2.2.2.2.2.2.2.1 (by decide) hb, h1.2.2.2.2.2.2.2.2.2 (by decide) hb⟩

/-! ## C3: the default folder always exists -/

/-- C3 counterexample: rename_folder applied to the default folder itself
succeeds and leaves a store in which the default folder is no longer a key. -/
theorem c3_counterexample :
    (rename_folder [(DEFAULT_FOLDER, emptyFolder)] DEFAULT_FOLDER "X").1 = true
    ∧ lookupF (rename_folder [(DEFAULT_FOLDER, emptyFolder)] DEFAULT_FOLDER "X").2
        DEFAULT_FOLDER = none := by
  refine ⟨by decide, by decide⟩

/-- A fold that only ever setF-inserts parent folders preserves any present key
(the parent-chain loop of create_folder). -/
theorem foldl_setF_preserves (l : List Nat) (pf : Nat → String) (st : Store)
    (n : String) (h : (lookupF st n).isSome) :
    (lookupF (l.foldl (fun acc i =>
      if pf i ≠ "" ∧ (lookupF acc (pf i)).isNone
      then setF acc (pf i) emptyFolder else acc) st) n).isSome := by
  refine foldl_preserves (fun s0 => (lookupF s0 n).isSome) _ ?_ l st h
  intro a0 b0 h0
  dsimp only
  split
  · exact isSome_lookupF_setF _ _ _ _ h0
  · exact h0

/-- The store move_card_up leaves behind is either unchanged or one setF. -/
theorem move_card_up_shape (st : Store) (f : String) (lvl : Level) (i : Nat) :
    resStore (move_card_up st f lvl i) st = st
    ∨ ∃ fd1 nl card, resStore (move_card_up st f lvl i) st
        = setF st f (Folder.set fd1 nl (fd1.get nl ++ [card])) := by
  unfold move_card_up
  split
  · left; rfl
  · split
    · left; rfl
    · split
      · left; rfl
      · right; exact ⟨_, _, _, rfl⟩

/-- The store move_card_down leaves behind is either unchanged or one setF. -/
theorem move_card_down_shape (st : Store) (f : String) (lvl : Level) (i : Nat) :
    resStore (move_card_down st f lvl i) st = st
    ∨ ∃ fd1 card, resStore (move_card_down st f lvl i) st
        = setF st f (Folder.set fd1 .level_1 (fd1.get .level_1 ++ [card])) := by
  unfold move_card_down
  split
  · left; rfl
  · split
    · left; rfl
    · split
      · left; rfl
      · right; exact ⟨_, _, rfl⟩

/-- C3 amended: starting from a store containing the default folder, every
operation — add, delete, edit, both folder-to-folder moves, promote, demote,
reset, delete-all, and folder create/delete — preserves its presence, and
rename_folder preserves it provided the renamed folder is not the default
folder itself (renaming the default folder away is possible in the code). -/
theorem c3_default_folder_preserved (st : Store) (q a : String)
    (qi ai : Option String) (f src tgt nm old_n new_n : String) (lvl : Level) (i : Nat)
    (hdef : (lookupF st DEFAULT_FOLDER).isSome) (hold : old_n ≠ DEFAULT_FOLDER) :
    (lookupF (add_new_flashcard st q a qi ai f).2 DEFAULT_FOLDER).isSome
    ∧ (lookupF (delete_flashcard st f lvl i).2 DEFAULT_FOLDER).isSome
    ∧ (lookupF (edit_flashcard st f lvl i q a qi ai).2 DEFAULT_FOLDER).isSome
    ∧ (lookupF (move_card_to_folder st src lvl i tgt).2 DEFAULT_FOLDER).isSome
    ∧ (lookupF (move_card_between_folders st src lvl i tgt).2 DEFAULT_FOLDER).isSome
    ∧ (lookupF (stepUp f lvl i st) DEFAULT_FOLDER).isSome
    ∧ (lookupF (stepDown f lvl i st) DEFAULT_FOLDER).isSome
    ∧ (lookupF (reset_all_cards st (some f)) DEFAULT_FOLDER).isSome
    ∧ (lookupF (reset_all_cards st none) DEFAULT_FOLDER).isSome
    ∧ (lookupF (delete_all_cards st (some f)) DEFAULT_FOLDER).isSome
    ∧ (lookupF (delete_all_cards st none) DEFAULT_FOLDER).isSome
    ∧ (lookupF (create_folder st nm).2 DEFAULT_FOLDER).isSome
    ∧ (lookupF (delete_folder st nm).2 DEFAULT_FOLDER).isSome
    ∧ (lookupF (rename_folder st old_n new_n).2 DEFAULT_FOLDER).isSome := by
  obtain ⟨fdd, hfdd⟩ := Option.isSome_iff_exists.mp hdef
  refine ⟨?_, ?_, ?_, ?_, ?_, ?_, ?_, ?_, ?_, ?_, ?_, ?_, ?_, ?_⟩
  · unfold add_new_flashcard
    repeat' split
    all_goals first
      | exact hdef
      | exact isSome_lookupF_setF _ _ _ _ hdef
  · unfold delete_flashcard
    repeat' split
    all_goals first
      | exact hdef
      | exact isSome_lookupF_setF _ _ _ _ hdef
  · unfold edit_flashcard
    repeat' split
    all_goals first
      | exact hdef
      | exact isSome_lookupF_setF _ _ _ _ hdef
  · unfold move_card_to_folder
    repeat' split
    all_goals first
      | exact hdef
      | exact isSome_lookupF_setF _ _ _ _ hdef
      | exact isSome_lookupF_setF _ _ _ _ (isSome_lookupF_setF _ _ _ _ hdef)
  · have hens : (lookupF (ensureFolder st tgt) DEFAULT_FOLDER).isSome := by
      unfold ensureFolder
      split
      · exact isSome_lookupF_setF _ _ _ _ hdef
      · exact hdef
    unfold move_card_between_folders
    repeat' split
    all_goals first
      | exact hdef
      | exact hens
      | exact isSome_lookupF_setF _ _ _ _ hens
      | exact isSome_lookupF_setF _ _ _ _ (isSome_lookupF_setF _ _ _ _ hens)
  · unfold stepUp
    rcases move_card_up_shape st f lvl i with h | ⟨fd1, nl, card, h⟩
    · rw [h]; exact hdef
    · rw [h]; exact isSome_lookupF_setF _ _ _ _ hdef
  · unfold stepDown
    rcases move_card_down_shape st f lvl i with h | ⟨fd1, card, h⟩
    · rw [h]; exact hdef
    · rw [h]; exact isSome_lookupF_setF _ _ _ _ hdef
  · unfold reset_all_cards
    dsimp only
    repeat' split
    all_goals first
      | exact hdef
      | exact isSome_lookupF_setF _ _ _ _ hdef
  · show (lookupF (st.map (fun kv => (kv.1, resetFolderCards kv.2))) DEFAULT_FOLDER).isSome
    rw [lookupF_map, hfdd]
    rfl
  · unfold delete_all_cards
    dsimp only
    repeat' split
    all_goals first
      | exact hdef
      | exact isSome_lookupF_setF _ _ _ _ hdef
  · show (lookupF (st.map (fun kv => (kv.1, emptyFolder))) DEFAULT_FOLDER).isSome
    rw [lookupF_map_const, hfdd]
    rfl
  · simp only [create_folder]
    split
    · exact hdef
    · split
      · exact isSome_lookupF_setF _ _ _ _ (foldl_setF_preserves _ _ st _ hdef)
      · exact foldl_setF_preserves _ _ st _ hdef
  · unfold delete_folder
    split
    · rename_i hcond
      rw [lookupF_eraseF_ne _ _ _ (fun hh => hcond.2 hh)]
      exact hdef
    · exact hdef
  · unfold rename_folder
    repeat' split
    all_goals first
      | exact hdef
      | · refine isSome_lookupF_append _ _ _ ?_
          rw [lookupF_eraseF_ne _ _ _ hold]
          exact hdef

/-- Witness for C3 amended at a concrete store with a non-default folder. -/
theorem c3_default_folder_preserved_witness :
    (lookupF (reset_all_cards [("All Cards", emptyFolder), ("X", emptyFolder)] none)
      DEFAULT_FOLDER).isSome
    ∧ (lookupF (rename_folder [("All Cards", emptyFolder), ("X", emptyFolder)] "X" "Y").2
      DEFAULT_FOLDER).isSome := by
  have h := c3_default_folder_preserved [("All Cards", emptyFolder), ("X", emptyFolder)]
    "q" "a" none none "All Cards" "All Cards" "X" "X" "X" "Y" .level_1 0
    (by decide) (by decide)
  exact ⟨h.2.2.2.2.2.2.2.2.1, h.2.2.2.2.2.2.2.2.2.2.2.2.2⟩

/-! ## C1: the selector is total -/

theorem mem_dedupFirst_aux (x : String) : ∀ (l acc : List String),
    x ∈ l.foldl (fun acc y => if y ∈ acc then acc else acc ++ [y]) acc
    ↔ x ∈ acc ∨ x ∈ l := by
  intro l
  induction l with
  | nil => intro acc; simp
  | cons y ys ih =>
    intro acc
    simp only [List.foldl_cons]
    rw [ih]
    by_cases hy : y ∈ acc
    · simp only [if_pos hy, List.mem_cons]
      constructor
      · rintro (h | h)
        · exact Or.inl h
        · exact Or.inr (Or.inr h)
      · rintro (h | h | h)
        · exact Or.inl h
        · exact Or.inl (h ▸ hy)
        · exact Or.inr h
    · simp only [if_neg hy, List.mem_append, List.mem_singleton, List.mem_cons,
        List.not_mem_nil, or_false]
      exact or_assoc

theorem mem_dedupFirst (x : String) (l : List String) :
    x ∈ dedupFirst l ↔ x ∈ l := by
  unfold dedupFirst
  rw [mem_dedupFirst_aux]
  simp

theorem mem_availableOf (s : Session) (f : String) (fd : Folder) :
    (f, fd) ∈ availableOf s ↔ f ∈ s.study_folders ∧ lookupF s.flashcards f = some fd := by
  unfold availableOf
  rw [List.mem_filterMap]
  constructor
  · rintro ⟨a, ha, hg⟩
    cases hla : lookupF s.flashcards a with
    | none => rw [hla] at hg; simp at hg
    | some fd' =>
      rw [hla] at hg
      simp at hg
      obtain ⟨h1, h2⟩ := hg
      subst h1
      subst h2
      exact ⟨(mem_dedupFirst _ _).mp ha, hla⟩
  · rintro ⟨hf, hlk⟩
    exact ⟨f, (mem_dedupFirst _ _).mpr hf, by rw [hlk]; rfl⟩

theorem pyChoice_isSome {α : Type u} (l : List α) (n : Nat) (h : l ≠ []) :
    (pyChoice l n).isSome := by
  unfold pyChoice
  have hlen : 0 < l.length := List.length_pos.mpr h
  rw [List.get?_eq_get (Nat.mod_lt _ hlen)]
  rfl

theorem pyChoice_mem {α : Type u} {l : List α} {n : Nat} {x : α}
    (h : pyChoice l n = some x) : x ∈ l :=
  List.get?_mem h

theorem attemptLoop_none_of_empty (av : Store) (fl : List String) (ws : List ℚ)
    (dc : Level → ℚ) (rs : List String) (o : RandOracle)
    (h : ∀ p ∈ av, ∀ lvl : Level, p.2.get lvl = []) :
    ∀ fuel t, attemptLoop av fl ws dc rs o fuel t = none := by
  intro fuel
  induction fuel with
  | zero => intro t; rfl
  | succ k ih =>
    intro t
    rw [attemptLoop]
    cases hwc : weighted_choice fl ws (o.floats (2 * t)) (o.picks (2 * t)) with
    | none => rfl
    | some folder =>
      cases hlk : lookupF av folder with
      | none => simp [hlk, ih]
      | some fd =>
        have hemp := h (folder, fd) (lookupF_mem hlk) (chooseLevel dc (o.floats (2 * t + 1)))
        simp [hlk, hemp, ih]

theorem allCandidates_nil (av : Store) (h : ∀ p ∈ av, ∀ lvl : Level, p.2.get lvl = []) :
    allCandidates av = [] := by
  induction av with
  | nil => rfl
  | cons p rest ih =>
    have h1 := h p (List.mem_cons_self _ _)
    have hrest : ∀ q ∈ rest, ∀ lvl : Level, q.2.get lvl = [] :=
      fun q hq => h q (List.mem_cons_of_mem _ hq)
    simp [allCandidates, levelsList, h1 .level_1, h1 .level_2, h1 .level_3, h1 .level_4]
    simpa [allCandidates, levelsList] using ih hrest

theorem allCandidates_ne_nil (av : Store) (f : String) (fd : Folder) (lvl : Level)
    (hmem : (f, fd) ∈ av) (hne : fd.get lvl ≠ []) : allCandidates av ≠ [] := by
  cases hg : fd.get lvl with
  | nil => exact absurd hg hne
  | cons c rest =>
    intro h0
    have hin : (f, lvl, 0, c, cardKey f lvl c) ∈ allCandidates av := by
      unfold allCandidates
      refine List.mem_flatMap.mpr ⟨(f, fd), hmem, ?_⟩
      refine List.mem_flatMap.mpr ⟨lvl, ?_, ?_⟩
      · cases lvl <;> simp [levelsList]
      · rw [hg]
        exact List.mem_map.mpr ⟨(0, c), by simp [List.enum_cons], rfl⟩
    rw [h0] at hin
    exact absurd hin (List.not_mem_nil _)

/-- C1: the Selector returns none exactly when every level of every active
folder is empty (folders absent from the store count as empty); whenever some
card exists in an active folder it returns a tuple, for every oracle of random
draws. -/
theorem c1_selector_none_iff (s : Session) (o : RandOracle) :
    (get_next_question s o).1 = none
    ↔ ∀ f ∈ s.study_folders, ∀ lvl : Level,
        ((lookupF s.flashcards f).map (fun fd => fd.get lvl)).getD [] = [] := by
  constructor
  · intro hnone f hf lvl
    cases hlf : lookupF s.flashcards f with
    | none => rfl
    | some fd =>
      simp only [hlf, Option.map_some', Option.getD_some]
      by_contra hne
      have hmem : (f, fd) ∈ availableOf s := (mem_availableOf s f fd).mpr ⟨hf, hlf⟩
      have havne : availableOf s ≠ [] := List.ne_nil_of_mem hmem
      have hcne := allCandidates_ne_nil (availableOf s) f fd lvl hmem hne
      simp only [get_next_question] at hnone
      split at hnone
      · rename_i hemp
        rw [List.isEmpty_iff] at hemp
        exact havne hemp
      · split at hnone
        · simp at hnone
        · split at hnone
          · rename_i hemp
            rw [List.isEmpty_iff] at hemp
            exact hcne hemp
          · split at hnone
            · simp at hnone
            · rename_i hpc
              have hplne : (if (List.filter
                    (fun c => decide (c.2.2.2.2 ∉ s.recently_shown))
                    (allCandidates (availableOf s))).isEmpty = true
                  then allCandidates (availableOf s)
                  else List.filter (fun c => decide (c.2.2.2.2 ∉ s.recently_shown))
                    (allCandidates (availableOf s))) ≠ [] := by
                split
                · exact hcne
                · rename_i hflt
                  exact fun h0 => hflt (by rw [h0]; rfl)
              have hsome := pyChoice_isSome _ (o.picks 20) hplne
              rw [hpc] at hsome
              simp at hsome
  · intro hempty
    by_cases hav : availableOf s = []
    · simp [get_next_question, hav]
    · have hall : ∀ p ∈ availableOf s, ∀ lvl : Level, p.2.get lvl = [] := by
        intro p hp lvl
        obtain ⟨pf, pfd⟩ := p
        obtain ⟨hmem, hlk⟩ := (mem_availableOf s pf pfd).mp hp
        have hx := hempty pf hmem lvl
        rw [hlk] at hx
        simpa using hx
      have hloop := attemptLoop_none_of_empty (availableOf s)
        ((availableOf s).map Prod.fst)
        (((availableOf s).map Prod.fst).map s.folder_weights)
        s.draw_chances s.recently_shown o hall 10 0
      have hcands := allCandidates_nil (availableOf s) hall
      simp only [get_next_question]
      rw [if_neg (by simp [List.isEmpty_iff, hav]), hloop]
      simp [List.isEmpty_iff, hcands]

/-! ## C4: the recency window prevents repeats in a bucket -/

theorem getF_single (L lvl : Level) (cs : List Card) :
    (Folder.set emptyFolder L cs).get lvl = if lvl = L then cs else [] := by
  cases L <;> cases lvl <;> rfl

theorem availableOf_single (f : String) (L : Level) (cs : List Card)
    (dc : Level → ℚ) (fw : String → ℚ) (rs : List String) (N : Nat) :
    availableOf (singleSession f L cs dc fw rs N)
      = [(f, Folder.set emptyFolder L cs)] := by
  unfold availableOf singleSession dedupFirst
  simp [lookupF]

theorem weighted_choice_single (x : String) (w u : ℚ) (p : Nat) :
    weighted_choice [x] [w] u p = some x := by
  show (if List.sum [w] ≤ 0 then pyChoice [x] p
    else match wcGo (u * List.sum [w]) ([x].zip [w]) 0 with
      | some it => some it
      | none => [x].getLast?) = some x
  split
  · simp [pyChoice, Nat.mod_one]
  · cases hg : wcGo (u * List.sum [w]) ([x].zip [w]) 0 with
    | none => simp [hg]
    | some y =>
      have hyx : y = x := by
        simp only [List.zip_cons_cons, List.zip_nil_right] at hg
        unfold wcGo at hg
        split at hg
        · simpa using hg.symm
        · unfold wcGo at hg
          exact absurd hg (by simp)
      subst hyx
      simp [hg]

theorem exists_enumFrom_of_mem {α : Type u} {c : α} :
    ∀ (l : List α) (n : Nat), c ∈ l → ∃ i, (i, c) ∈ l.enumFrom n := by
  intro l
  induction l with
  | nil => simp
  | cons a as ih =>
    intro n hc
    rcases List.mem_cons.mp hc with h | h
    · exact ⟨n, by simp [List.enumFrom, h]⟩
    · obtain ⟨i, hi⟩ := ih (n + 1) h
      exact ⟨i, by simp [List.enumFrom]; right; exact hi⟩

theorem mem_of_mem_enumFrom {α : Type u} {p : Nat × α} :
    ∀ (l : List α) (n : Nat), p ∈ l.enumFrom n → p.2 ∈ l := by
  intro l
  induction l with
  | nil => simp [List.enumFrom]
  | cons a as ih =>
    intro n hp
    simp only [List.enumFrom, List.mem_cons] at hp
    rcases hp with h | h
    · rw [h]
      exact List.mem_cons_self _ _
    · exact List.mem_cons_of_mem _ (ih (n + 1) h)

theorem allCandidates_single (f : String) (L : Level) (cs : List Card) :
    allCandidates [(f, Folder.set emptyFolder L cs)]
      = cs.enum.map (fun e => (f, L, e.1, e.2, cardKey f L e.2)) := by
  cases L <;>
    simp [allCandidates, levelsList, Folder.set, Folder.get, emptyFolder, List.enum]

theorem pushRecent_length_le (rs : List String) (k : String) (m : Nat)
    (h : rs.length ≤ m) : (pushRecent rs k m).length ≤ m := by
  show (if m < (rs ++ [k]).length
    then List.drop ((rs ++ [k]).length - m) (rs ++ [k]) else rs ++ [k]).length ≤ m
  split
  · rename_i hlt
    rw [List.length_drop]
    simp only [List.length_append, List.length_singleton] at hlt ⊢
    omega
  · rename_i hge
    simp only [List.length_append, List.length_singleton, not_lt] at hge ⊢
    omega

theorem suffix_trim (t l : List String) (m : Nat) (hsuf : t <:+ l)
    (hlen : t.length ≤ m) :
    t <:+ (if m < l.length then l.drop (l.length - m) else l) := by
  split
  · obtain ⟨p, hp⟩ := hsuf
    subst hp
    have hd : (p ++ t).length - m ≤ p.length := by
      simp only [List.length_append]
      omega
    refine ⟨p.drop ((p ++ t).length - m), ?_⟩
    rw [List.drop_append_eq_append_drop, Nat.sub_eq_zero_of_le hd, List.drop_zero]
  · exact hsuf

theorem suffix_pushRecent (t rs : List String) (k : String) (m : Nat)
    (hsuf : t <:+ rs) (hlen : t.length + 1 ≤ m) :
    (t ++ [k]) <:+ pushRecent rs k m := by
  have h1 : (t ++ [k]) <:+ (rs ++ [k]) := by
    obtain ⟨p, hp⟩ := hsuf
    exact ⟨p, by rw [← List.append_assoc, hp]⟩
  have h2 : (t ++ [k]).length ≤ m := by
    simp only [List.length_append, List.length_singleton]
    omega
  exact suffix_trim _ (rs ++ [k]) m h1 h2

theorem fresh_key_exists (keys w : List String) (h : w.length < keys.dedup.length) :
    ∃ k ∈ keys, k ∉ w := by
  by_contra hcon
  push_neg at hcon
  have hsub : keys.dedup ⊆ w := fun x hx => hcon x (List.mem_dedup.mp hx)
  have hle := ((List.nodup_dedup keys).subperm hsub).length_le
  omega

/-- On a single-bucket available map, every attempt either retries on an empty
level or returns a card of the bucket whose key is not recently shown
(provided one exists). -/
theorem attemptLoop_single (f : String) (L : Level) (cs : List Card)
    (dc : Level → ℚ) (w : ℚ) (rs : List String) (o : RandOracle)
    (hfresh : ∃ c ∈ cs, cardKey f L c ∉ rs) :
    ∀ fuel t,
      attemptLoop [(f, Folder.set emptyFolder L cs)] [f] [w] dc rs o fuel t = none
      ∨ ∃ c i, c ∈ cs ∧ cardKey f L c ∉ rs ∧
          attemptLoop [(f, Folder.set emptyFolder L cs)] [f] [w] dc rs o fuel t
            = some (f, L, c, i, cardKey f L c) := by
  intro fuel
  induction fuel with
  | zero => intro t; exact Or.inl rfl
  | succ k ih =>
    intro t
    have hwc := weighted_choice_single f w (o.floats (2 * t)) (o.picks (2 * t))
    have hcs : cs ≠ [] := by
      obtain ⟨c, hc, _⟩ := hfresh
      exact List.ne_nil_of_mem hc
    by_cases hL : chooseLevel dc (o.floats (2 * t + 1)) = L
    · have hnrne : (bucketCandidates f L cs).filter
          (fun c => !decide (c.2.2 ∈ rs)) ≠ [] := by
        obtain ⟨c, hc, hknot⟩ := hfresh
        obtain ⟨i0, hi0⟩ := exists_enumFrom_of_mem cs 0 hc
        have hmemc : (i0, c, cardKey f L c) ∈ bucketCandidates f L cs :=
          List.mem_map.mpr ⟨(i0, c), hi0, rfl⟩
        have hmn : (i0, c, cardKey f L c) ∈ (bucketCandidates f L cs).filter
            (fun c => !decide (c.2.2 ∈ rs)) :=
          List.mem_filter.mpr ⟨hmemc, by simpa using hknot⟩
        exact List.ne_nil_of_mem hmn
      have hred : attemptLoop [(f, Folder.set emptyFolder L cs)] [f] [w] dc rs o (k + 1) t
          = match pyChoice ((bucketCandidates f L cs).filter
              (fun c => !decide (c.2.2 ∈ rs))) (o.picks (2 * t + 1)) with
            | some p => some (f, L, p.2.1, p.1, p.2.2)
            | none => none := by
        rw [attemptLoop, hwc]
        simp [lookupF, getF_single, hL, hcs, List.isEmpty_iff, hnrne, decide_not]
      rw [hred]
      cases hpc : pyChoice ((bucketCandidates f L cs).filter
          (fun c => !decide (c.2.2 ∈ rs))) (o.picks (2 * t + 1)) with
      | none =>
        have hs := pyChoice_isSome _ (o.picks (2 * t + 1)) hnrne
        rw [hpc] at hs
        simp at hs
      | some p =>
        right
        have hpmem := pyChoice_mem hpc
        have hfil := List.mem_filter.mp hpmem
        obtain ⟨e, he, hpe⟩ := List.mem_map.mp hfil.1
        have hknot : p.2.2 ∉ rs := by simpa using hfil.2
        refine ⟨e.2, e.1, mem_of_mem_enumFrom cs 0 he, ?_, ?_⟩
        · rw [← hpe] at hknot
          simpa using hknot
        · rw [← hpe]
    · have hred : attemptLoop [(f, Folder.set emptyFolder L cs)] [f] [w] dc rs o (k + 1) t
          = attemptLoop [(f, Folder.set emptyFolder L cs)] [f] [w] dc rs o k (t + 1) := by
        rw [attemptLoop, hwc]
        simp [lookupF, getF_single, hL]
      rw [hred]
      exact ih (t + 1)

/-- One selector call on a single-bucket session returns a card of the bucket
whose key is not recently shown, and appends exactly that key to the window
(both for the attempt loop and for the fallback path). -/
theorem singleBucket_draw (f : String) (L : Level) (cs : List Card)
    (dc : Level → ℚ) (fw : String → ℚ) (rs : List String) (N : Nat) (o : RandOracle)
    (hfresh : ∃ c ∈ cs, cardKey f L c ∉ rs) :
    ∃ c i, c ∈ cs ∧ cardKey f L c ∉ rs ∧
      get_next_question (singleSession f L cs dc fw rs N) o
        = (some (f, L, c, i), pushRecent rs (cardKey f L c) N) := by
  have hav := availableOf_single f L cs dc fw rs N
  have hcs : cs ≠ [] := by
    obtain ⟨c, hc, _⟩ := hfresh
    exact List.ne_nil_of_mem hc
  rcases attemptLoop_single f L cs dc (fw f) rs o hfresh 10 0 with hnone | ⟨c, i, hc, hk, hsome⟩
  · -- the attempt loop found nothing: the fallback path picks from the bucket
    have hall := allCandidates_single f L cs
    have hnrne : (cs.enum.map (fun e => (f, L, e.1, e.2, cardKey f L e.2))).filter
        (fun c => !decide (c.2.2.2.2 ∈ rs)) ≠ [] := by
      obtain ⟨c, hc, hknot⟩ := hfresh
      obtain ⟨i0, hi0⟩ := exists_enumFrom_of_mem cs 0 hc
      have hmemc : (f, L, i0, c, cardKey f L c)
          ∈ cs.enum.map (fun e => (f, L, e.1, e.2, cardKey f L e.2)) :=
        List.mem_map.mpr ⟨(i0, c), hi0, rfl⟩
      have hmn : (f, L, i0, c, cardKey f L c)
          ∈ (cs.enum.map (fun e => (f, L, e.1, e.2, cardKey f L e.2))).filter
            (fun c => !decide (c.2.2.2.2 ∈ rs)) :=
        List.mem_filter.mpr ⟨hmemc, by simpa using hknot⟩
      exact List.ne_nil_of_mem hmn
    have hcne : cs.enum.map (fun e => (f, L, e.1, e.2, cardKey f L e.2)) ≠ [] := by
      cases hg : cs with
      | nil => exact absurd hg hcs
      | cons c0 rest => simp [List.enum_cons]
    have hred : get_next_question (singleSession f L cs dc fw rs N) o
        = match pyChoice ((cs.enum.map (fun e => (f, L, e.1, e.2, cardKey f L e.2))).filter
            (fun c => !decide (c.2.2.2.2 ∈ rs))) (o.picks 20) with
          | some q => (some (q.1, q.2.1, q.2.2.2.1, q.2.2.1), pushRecent rs q.2.2.2.2 N)
          | none => (none, rs) := by
      simp only [get_next_question, hav]
      rw [if_neg (by simp)]
      have hloopEq : attemptLoop [(f, Folder.set emptyFolder L cs)]
          (List.map Prod.fst [(f, Folder.set emptyFolder L cs)])
          (List.map (singleSession f L cs dc fw rs N).folder_weights
            (List.map Prod.fst [(f, Folder.set emptyFolder L cs)]))
          (singleSession f L cs dc fw rs N).draw_chances
          (singleSession f L cs dc fw rs N).recently_shown o 10 0 = none := by
        simpa [singleSession] using hnone
      rw [hloopEq, hall]
      rw [if_neg (by simp [List.isEmpty_iff, hcne])]
      simp [singleSession, List.isEmpty_iff, hnrne, decide_not]
    cases hpc : pyChoice ((cs.enum.map (fun e => (f, L, e.1, e.2, cardKey f L e.2))).filter
        (fun c => !decide (c.2.2.2.2 ∈ rs))) (o.picks 20) with
    | none =>
      have hs := pyChoice_isSome _ (o.picks 20) hnrne
      rw [hpc] at hs
      simp at hs
    | some q =>
      have hqmem := pyChoice_mem hpc
      have hfil := List.mem_filter.mp hqmem
      obtain ⟨e, he, hqe⟩ := List.mem_map.mp hfil.1
      have hknot : q.2.2.2.2 ∉ rs := by simpa using hfil.2
      refine ⟨e.2, e.1, mem_of_mem_enumFrom cs 0 he, ?_, ?_⟩
      · rw [← hqe] at hknot
        simpa using hknot
      · rw [hred, hpc, ← hqe]
  · -- the attempt loop succeeded
    refine ⟨c, i, hc, hk, ?_⟩
    simp only [get_next_question, hav]
    rw [if_neg (by simp)]
    have hloopEq : attemptLoop [(f, Folder.set emptyFolder L cs)]
        (List.map Prod.fst [(f, Folder.set emptyFolder L cs)])
        (List.map (singleSession f L cs dc fw rs N).folder_weights
          (List.map Prod.fst [(f, Folder.set emptyFolder L cs)]))
        (singleSession f L cs dc fw rs N).draw_chances
        (singleSession f L cs dc fw rs N).recently_shown o 10 0
        = some (f, L, c, i, cardKey f L c) := by
      simpa [singleSession] using hsome
    rw [hloopEq]
    simp [singleSession]

/-- singleBucket_draw lifted to the session transformer. -/
theorem singleSession_step (f : String) (L : Level) (cs : List Card)
    (dc : Level → ℚ) (fw : String → ℚ) (rs : List String) (N : Nat) (o : RandOracle)
    (hfresh : ∃ c ∈ cs, cardKey f L c ∉ rs) :
    ∃ c i, c ∈ cs ∧ cardKey f L c ∉ rs ∧
      getNextQuestionS (singleSession f L cs dc fw rs N) o
        = (some (f, L, c, i),
           singleSession f L cs dc fw (pushRecent rs (cardKey f L c) N) N) := by
  obtain ⟨c, i, hc, hk, heq⟩ := singleBucket_draw f L cs dc fw rs N o hfresh
  refine ⟨c, i, hc, hk, ?_⟩
  unfold getNextQuestionS
  rw [heq]
  rfl

/-- The induction behind C4: starting from a window of length at most N whose
suffix ks0 lists the keys already drawn in this run, m further draws (with
ks0.length + m ≤ N) all succeed and, together with ks0, produce pairwise
distinct keys. -/
theorem iter_singleBucket (f : String) (L : Level) (cs : List Card)
    (dc : Level → ℚ) (fw : String → ℚ) (N : Nat)
    (hkeys : N < ((cs.map (cardKey f L)).dedup).length) :
    ∀ (m : Nat) (rs ks0 : List String) (os : Nat → RandOracle),
      ks0 <:+ rs → ks0.Nodup → rs.length ≤ N → ks0.length + m ≤ N →
      ∃ res : List Res,
        (iterDraws os m (singleSession f L cs dc fw rs N)).1 = res.map some
        ∧ res.length = m
        ∧ (ks0 ++ res.map (fun r => cardKey f L r.2.2.1)).Nodup := by
  intro m
  induction m with
  | zero =>
    intro rs ks0 os hsuf hnd hrs hcnt
    exact ⟨[], rfl, rfl, by simpa using hnd⟩
  | succ k ih =>
    intro rs ks0 os hsuf hnd hrs hcnt
    have hfresh : ∃ c ∈ cs, cardKey f L c ∉ rs := by
      obtain ⟨kk, hkmem, hknot⟩ :=
        fresh_key_exists (cs.map (cardKey f L)) rs (lt_of_le_of_lt hrs hkeys)
      obtain ⟨c, hc, hck⟩ := List.mem_map.mp hkmem
      exact ⟨c, hc, hck ▸ hknot⟩
    obtain ⟨c, i, hc, hk, hstep⟩ := singleSession_step f L cs dc fw rs N (os 0) hfresh
    have hsub : ks0 ⊆ rs := hsuf.subset
    have hknot0 : cardKey f L c ∉ ks0 := fun hh => hk (hsub hh)
    have hnd1 : (ks0 ++ [cardKey f L c]).Nodup := by
      rw [List.nodup_append]
      refine ⟨hnd, List.nodup_singleton _, fun x hx hy => ?_⟩
      simp only [List.mem_singleton] at hy
      exact hknot0 (hy ▸ hx)
    have hsuf1 : (ks0 ++ [cardKey f L c]) <:+ pushRecent rs (cardKey f L c) N :=
      suffix_pushRecent _ _ _ _ hsuf (by omega)
    have hrs1 : (pushRecent rs (cardKey f L c) N).length ≤ N :=
      pushRecent_length_le _ _ _ hrs
    have hcnt1 : (ks0 ++ [cardKey f L c]).length + k ≤ N := by
      simp only [List.length_append, List.length_singleton]
      omega
    obtain ⟨res, hres, hlen, hndres⟩ := ih (pushRecent rs (cardKey f L c) N)
      (ks0 ++ [cardKey f L c]) (fun j => os (j + 1)) hsuf1 hnd1 hrs1 hcnt1
    refine ⟨(f, L, c, i) :: res, ?_, ?_, ?_⟩
    · rw [iterDraws]
      simp [hstep, hres]
    · simp [hlen]
    · rw [show ks0 ++ ((f, L, c, i) :: res).map (fun r => cardKey f L r.2.2.1)
          = (ks0 ++ [cardKey f L c]) ++ res.map (fun r => cardKey f L r.2.2.1) by simp]
      exact hndres

/-- C4: on a bucket with more than N recency-distinct cards and a window of
capacity N, N consecutive selector draws all succeed and return N pairwise
distinct cards, for every oracle of random draws. -/
theorem c4_recency_no_repeat (f : String) (L : Level) (cs : List Card)
    (dc : Level → ℚ) (fw : String → ℚ) (rs0 : List String) (N : Nat)
    (os : Nat → RandOracle)
    (hrs : rs0.length ≤ N)
    (hkeys : N < ((cs.map (cardKey f L)).dedup).length) :
    ∃ res : List Res,
      (iterDraws os N (singleSession f L cs dc fw rs0 N)).1 = res.map some
      ∧ res.length = N
      ∧ (res.map (fun r => r.2.2.1)).Nodup := by
  obtain ⟨res, h1, h2, h3⟩ := iter_singleBucket f L cs dc fw N hkeys N rs0 [] os
    List.nil_suffix List.nodup_nil hrs (by simp)
  refine ⟨res, h1, h2, ?_⟩
  have hkn : (res.map (fun r => cardKey f L r.2.2.1)).Nodup := by simpa using h3
  have hmm : res.map (fun r => cardKey f L r.2.2.1)
      = (res.map (fun r => r.2.2.1)).map (cardKey f L) := by
    rw [List.map_map]
    rfl
  rw [hmm] at hkn
  exact hkn.of_map

/-- Witness for C4 at a two-card bucket with window capacity one. -/
theorem c4_recency_no_repeat_witness :
    ([] : List String).length ≤ 1
    ∧ 1 < (([⟨"q1", "a1", none, none⟩, ⟨"q2", "a2", none, none⟩] : List Card).map
        (cardKey "A" .level_1)).dedup.length
    ∧ ∃ res : List Res,
        (iterDraws (fun _ => ⟨fun _ => 0, fun _ => 0⟩) 1
          (singleSession "A" .level_1
            [⟨"q1", "a1", none, none⟩, ⟨"q2", "a2", none, none⟩]
            (fun _ => 0) (fun _ => 0) [] 1)).1 = res.map some
        ∧ res.length = 1
        ∧ (res.map (fun r => r.2.2.1)).Nodup :=
  ⟨by decide, by decide,
   c4_recency_no_repeat "A" .level_1
     [⟨"q1", "a1", none, none⟩, ⟨"q2", "a2", none, none⟩]
     (fun _ => 0) (fun _ => 0) [] 1 (fun _ => ⟨fun _ => 0, fun _ => 0⟩)
     (by decide) (by decide)⟩
